import Mathlib

/-!
Verification of `src/photo_sampler/sample_frames.py` against its
natural-language specification.

Modelling conventions:
* Python floats are modelled as rational numbers (`ℚ`); the spec states all
  comparisons and the running threshold are real-valued.
* Python strings are modelled as lists of Unicode code points (`List ℕ`).
* The decoded-frame stream is modelled by the number of frames it yields
  before `cap.read()` returns `ret = False`; pixel data is irrelevant to the
  sampling logic and is not modelled.
* Fallible operations are explicit: `ZeroDivisionError` raised by
  `frame_count / video_fps` when `video_fps = 0`, and the `RuntimeError`
  raised when the stream fails to open.
-/

/-- Code points of a string literal, used to write Python strings readably. -/
def pyStr (s : String) : List ℕ := s.toList.map Char.toNat

/-- Python `int(x)` on a float: truncation toward zero. -/
def pyTrunc (q : ℚ) : ℤ := if q < 0 then ⌈q⌉ else ⌊q⌋

/-- Python float floor division `a // b` (result is a float). -/
def pyFloorDiv (a b : ℚ) : ℚ := (⌊a / b⌋ : ℤ)

/-- Python float modulo `a % b`, i.e. `a - b * (a // b)`. -/
def pyMod (a b : ℚ) : ℚ := a - b * (⌊a / b⌋ : ℤ)

/-- Decimal digit code points of `n`, most significant first (fuel-driven so
that it reduces in the kernel). -/
def natDigitsAux : ℕ → ℕ → List ℕ
  | 0, _ => []
  | fuel + 1, n => if n < 10 then [48 + n] else natDigitsAux fuel (n / 10) ++ [48 + n % 10]

/-- Decimal digit code points of a natural number. -/
def natDigits (n : ℕ) : List ℕ := natDigitsAux (n + 1) n

/-- Python format specifier `:0{w}d` applied to an integer: zero-pad to a
minimum total width `w` (a sign, when present, counts toward the width). -/
def padInt (w : ℕ) (n : ℤ) : List ℕ :=
  if n < 0 then
    45 :: (List.replicate (w - 1 - (natDigits (-n).toNat).length) 48 ++ natDigits (-n).toNat)
  else
    List.replicate (w - (natDigits n.toNat).length) 48 ++ natDigits n.toNat

/-- The three integers computed by `format_timestamp`:
`minutes = int(seconds // 60)`, `secs = int(seconds % 60)`,
`millis = int((seconds % 1) * 1000)`. -/
def timestampFields (seconds : ℚ) : ℤ × ℤ × ℤ :=
  (pyTrunc (pyFloorDiv seconds 60), pyTrunc (pyMod seconds 60),
    pyTrunc (pyMod seconds 1 * 1000))

/-- `format_timestamp`: `f"{minutes:02d}_{secs:02d}_{millis:03d}"`
(code point 95 is the underscore). -/
def format_timestamp (seconds : ℚ) : List ℕ :=
  padInt 2 (timestampFields seconds).1 ++ [95] ++ padInt 2 (timestampFields seconds).2.1
    ++ [95] ++ padInt 3 (timestampFields seconds).2.2

/-- The output filename of the frame with source index `i`:
`f"frame_{timestamp_str}.png"` with `timestamp_sec = frame_count / video_fps`. -/
def frameName (video_fps : ℚ) (i : ℕ) : List ℕ :=
  pyStr "frame_" ++ format_timestamp ((i : ℚ) / video_fps) ++ pyStr ".png"

/-- Python exceptions that the sampling loop itself can raise. -/
inductive PyErr
  | zeroDivision
deriving DecidableEq, Repr

/-- State of the `while True` loop in `sample_frames`.  The fields
`frame_count`, `extracted_count` and `next_extract_frame` are the loop
variables of the source; `saved` is the observable trace of `cv2.imwrite`
calls, each recording the source index of the written frame, the value of
`next_extract_frame` at the moment of the keep decision, and the filename. -/
structure LoopState where
  frame_count : ℕ
  extracted_count : ℕ
  next_extract_frame : ℚ
  saved : List (ℕ × ℚ × List ℕ)
deriving DecidableEq, Repr

/-- Initial loop state: `frame_count = 0`, `extracted_count = 0`,
`next_extract_frame = 0`, nothing written yet. -/
def initState : LoopState := ⟨0, 0, 0, []⟩

/-- One iteration of the loop body for a successfully decoded frame.
If `frame_count >= next_extract_frame` the frame is kept: the timestamp
`frame_count / video_fps` is computed (raising `ZeroDivisionError` when
`video_fps = 0`, before any write), the frame is written, `extracted_count`
is incremented and `next_extract_frame += frame_interval`.  Otherwise the
frame is skipped.  In both non-raising cases `frame_count += 1`. -/
def loopStep (video_fps frame_interval : ℚ) (s : LoopState) : Option PyErr × LoopState :=
  if s.next_extract_frame ≤ (s.frame_count : ℚ) then
    if video_fps = 0 then
      (some PyErr.zeroDivision, s)
    else
      (none, ⟨s.frame_count + 1, s.extracted_count + 1, s.next_extract_frame + frame_interval,
        s.saved ++ [(s.frame_count, s.next_extract_frame, frameName video_fps s.frame_count)]⟩)
  else
    (none, ⟨s.frame_count + 1, s.extracted_count, s.next_extract_frame, s.saved⟩)

/-- The loop, run over a stream that yields `n` more decodable frames.
A raised exception aborts the loop, leaving the state as it was when the
exception was raised. -/
def runLoop (video_fps frame_interval : ℚ) : ℕ → LoopState → Option PyErr × LoopState
  | 0, s => (none, s)
  | n + 1, s =>
    if (loopStep video_fps frame_interval s).1 = none then
      runLoop video_fps frame_interval n (loopStep video_fps frame_interval s).2
    else
      loopStep video_fps frame_interval s

/-- Errors surfaced by a run of `sample_frames`. -/
inductive RunError
  | cannotOpen
  | zeroDivision
deriving DecidableEq, Repr

/-- Final outcome of `sample_frames`: the returned `extracted_count`, or the
exception that escaped. -/
inductive Outcome
  | err (e : RunError)
  | done (extracted : ℕ)
deriving DecidableEq, Repr

/-- Observable behaviour of one call of `sample_frames`: whether
`output_dir.mkdir` ran, how many times `cap.read` was called, the ordered
`cv2.imwrite` calls, and the outcome. -/
structure RunResult where
  mkdirDone : Bool
  readAttempts : ℕ
  writes : List (ℕ × ℚ × List ℕ)
  outcome : Outcome
deriving DecidableEq, Repr

/-- `sample_frames`.  `opened` is whether `cap.isOpened()`; on failure a
`RuntimeError` is raised before the directory is created and before any
read.  Otherwise `frame_interval = video_fps / target_fps if target_fps > 0
else video_fps`, the directory is created, and the loop runs over the
`stream_frames` decodable frames (a completed loop performs one final
failing read). -/
def sample_frames (opened : Bool) (video_fps target_fps : ℚ) (stream_frames : ℕ) : RunResult :=
  if opened then
    let frame_interval := if 0 < target_fps then video_fps / target_fps else video_fps
    let res := runLoop video_fps frame_interval stream_frames initState
    match res.1 with
    | none => ⟨true, stream_frames + 1, res.2.saved, Outcome.done res.2.extracted_count⟩
    | some _ => ⟨true, res.2.frame_count + 1, res.2.saved, Outcome.err RunError.zeroDivision⟩
  else
    ⟨false, 0, [], Outcome.err RunError.cannotOpen⟩

/-- Python `str.lower` on one code point (ASCII range, the only characters
relevant to the `WIDTHxHEIGHT` syntax). -/
def pyLowerChar (c : ℕ) : ℕ := if 65 ≤ c ∧ c ≤ 90 then c + 32 else c

/-- Python `str.upper` on one code point (ASCII range). -/
def pyUpperChar (c : ℕ) : ℕ := if 97 ≤ c ∧ c ≤ 122 then c - 32 else c

/-- Python `s.lower()`. -/
def pyLower (l : List ℕ) : List ℕ := l.map pyLowerChar

/-- Python `s.split(sep)` for a one-character separator: splits at every
occurrence, keeping empty parts. -/
def splitOnChar (sep : ℕ) : List ℕ → List (List ℕ)
  | [] => [[]]
  | c :: cs =>
    if c = sep then [] :: splitOnChar sep cs
    else
      match splitOnChar sep cs with
      | [] => [[c]]
      | p :: ps => (c :: p) :: ps

/-- ASCII whitespace, as stripped by Python `int(str)`. -/
def isSpaceCh (c : ℕ) : Bool := c = 32 || (9 ≤ c && c ≤ 13)

/-- Strip leading and trailing whitespace. -/
def stripStr (l : List ℕ) : List ℕ :=
  ((l.dropWhile isSpaceCh).reverse.dropWhile isSpaceCh).reverse

/-- ASCII decimal digit. -/
def isDigitCh (c : ℕ) : Bool := 48 ≤ c && c ≤ 57

/-- Remainder of Python `int` digit parsing after at least one digit has been
read into `acc`: further digits, with single underscores allowed only between
digits (code point 95 is the underscore). -/
def parseDigitsRest (acc : ℕ) : List ℕ → Option ℕ
  | [] => some acc
  | [c] => if isDigitCh c then some (10 * acc + (c - 48)) else none
  | c :: c2 :: cs =>
    if isDigitCh c then parseDigitsRest (10 * acc + (c - 48)) (c2 :: cs)
    else if c = 95 && isDigitCh c2 then parseDigitsRest acc (c2 :: cs)
    else none

/-- Python unsigned decimal literal parsing: at least one digit, underscores
between digits. -/
def pyIntDigits : List ℕ → Option ℕ
  | [] => none
  | c :: cs => if isDigitCh c then parseDigitsRest (c - 48) cs else none

/-- Python `int(str)`: optional surrounding whitespace, optional sign, then a
decimal literal; `none` models the `ValueError` raised otherwise. -/
def pyInt (l : List ℕ) : Option ℤ :=
  match stripStr l with
  | [] => none
  | c :: cs =>
    if c = 43 then Option.map Int.ofNat (pyIntDigits cs)
    else if c = 45 then Option.map (fun n => -Int.ofNat n) (pyIntDigits cs)
    else Option.map Int.ofNat (pyIntDigits (c :: cs))

/-- `parse_resize`: lower-cases the string, splits on `'x'` (code point 120),
and converts the two parts with `int`.  Any `ValueError` (wrong number of
parts, or a part `int` rejects) is caught and re-raised as an
`argparse.ArgumentTypeError`, modelled as `none`. -/
def parse_resize (l : List ℕ) : Option (ℤ × ℤ) :=
  match splitOnChar 120 (pyLower l) with
  | [w, h] =>
    match pyInt w, pyInt h with
    | some a, some b => some (a, b)
    | _, _ => none
  | _ => none

/-- Numeric value of a list of decimal digit code points. -/
def digitsVal (l : List ℕ) : ℤ := (l.foldl (fun a c => 10 * a + (c - 48)) 0 : ℕ)

/-- Modelled from the claim: the filename formula
`frame_{MM}_{SS}_{mmm}.png` with `MM = floor(ts / 60)` zero-padded to at
least 2 digits, `SS = floor(ts mod 60)` zero-padded to 2 digits and
`mmm = floor((ts mod 1) * 1000)` zero-padded to 3 digits, where `mod` is the
real-valued modulo. -/
def specFrameFilename (ts : ℚ) : List ℕ :=
  pyStr "frame_" ++ padInt 2 ⌊ts / 60⌋ ++ [95] ++ padInt 2 ⌊pyMod ts 60⌋ ++ [95]
    ++ padInt 3 ⌊pyMod ts 1 * 1000⌋ ++ pyStr ".png"

/-- Modelled from the claim: decoding the `(MM, SS, mmm)` fields of a
formatted filename back to seconds as `MM * 60 + SS + mmm / 1000`. -/
def decodeFields (t : ℤ × ℤ × ℤ) : ℚ := t.1 * 60 + t.2.1 + t.2.2 / 1000

/-- Properties of the write trace preserved by every iteration: written source
indices are below the current frame counter, each write was decided with
`next_extract_frame` at most the written index, each filename is the one the
source computes for that index, and indices are strictly increasing. -/
def SavedInv (video_fps : ℚ) (s : LoopState) : Prop :=
  List.Pairwise (fun p q => p.1 < q.1) s.saved ∧
  ∀ p ∈ s.saved,
    p.1 < s.frame_count ∧ p.2.1 ≤ (p.1 : ℚ) ∧ p.2.2 = frameName video_fps p.1

/-! ### Helper lemmas about single loop iterations -/

lemma loopStep_keep (video_fps frame_interval : ℚ) (s : LoopState)
    (hfps : video_fps ≠ 0) (hk : s.next_extract_frame ≤ (s.frame_count : ℚ)) :
    loopStep video_fps frame_interval s =
      (none, ⟨s.frame_count + 1, s.extracted_count + 1, s.next_extract_frame + frame_interval,
        s.saved ++ [(s.frame_count, s.next_extract_frame, frameName video_fps s.frame_count)]⟩) := by
  simp [loopStep, hk, hfps]

lemma loopStep_skip (video_fps frame_interval : ℚ) (s : LoopState)
    (hk : ¬ s.next_extract_frame ≤ (s.frame_count : ℚ)) :
    loopStep video_fps frame_interval s =
      (none, ⟨s.frame_count + 1, s.extracted_count, s.next_extract_frame, s.saved⟩) := by
  simp [loopStep, hk]

lemma loopStep_fst_eq_none (video_fps frame_interval : ℚ) (s : LoopState)
    (hfps : video_fps ≠ 0) : (loopStep video_fps frame_interval s).1 = none := by
  unfold loopStep
  split_ifs <;> simp_all

lemma runLoop_succ_of_none (video_fps frame_interval : ℚ) (n : ℕ) (s : LoopState)
    (hfps : video_fps ≠ 0) :
    runLoop video_fps frame_interval (n + 1) s =
      runLoop video_fps frame_interval n (loopStep video_fps frame_interval s).2 := by
  rw [runLoop, if_pos (loopStep_fst_eq_none video_fps frame_interval s hfps)]

lemma runLoop_fst_eq_none (video_fps frame_interval : ℚ) (hfps : video_fps ≠ 0) :
    ∀ (n : ℕ) (s : LoopState), (runLoop video_fps frame_interval n s).1 = none := by
  intro n
  induction n with
  | zero => intro s; rfl
  | succ n ih =>
    intro s
    rw [runLoop_succ_of_none video_fps frame_interval n s hfps]
    exact ih _

/-! ### Invariant preservation over the run -/

lemma savedInv_initState (video_fps : ℚ) : SavedInv video_fps initState := by
  constructor
  · exact List.Pairwise.nil
  · intro p hp
    simp [initState] at hp

lemma savedInv_step (video_fps frame_interval : ℚ) (s : LoopState)
    (h : SavedInv video_fps s) :
    SavedInv video_fps (loopStep video_fps frame_interval s).2 := by
  obtain ⟨hpw, hmem⟩ := h
  unfold loopStep
  split_ifs with hk hz
  · exact ⟨hpw, hmem⟩
  · constructor
    · simp only [List.pairwise_append]
      refine ⟨hpw, List.pairwise_singleton _ _, ?_⟩
      intro p hp q hq
      simp only [List.mem_singleton] at hq
      subst hq
      exact (hmem p hp).1
    · intro p hp
      simp only [List.mem_append, List.mem_singleton] at hp
      rcases hp with hp | hp
      · exact ⟨Nat.lt_succ_of_lt (hmem p hp).1, (hmem p hp).2⟩
      · subst hp
        exact ⟨Nat.lt_succ_self _, hk, rfl⟩
  · constructor
    · exact hpw
    · intro p hp
      exact ⟨Nat.lt_succ_of_lt (hmem p hp).1, (hmem p hp).2⟩

lemma savedInv_run (video_fps frame_interval : ℚ) :
    ∀ (n : ℕ) (s : LoopState), SavedInv video_fps s →
      SavedInv video_fps (runLoop video_fps frame_interval n s).2 := by
  intro n
  induction n with
  | zero => intro s h; exact h
  | succ n ih =>
    intro s h
    rw [runLoop]
    split_ifs with ho
    · exact ih _ (savedInv_step video_fps frame_interval s h)
    · exact savedInv_step video_fps frame_interval s h

lemma step_next_mono (video_fps frame_interval : ℚ) (hI : 0 ≤ frame_interval) (s : LoopState) :
    s.next_extract_frame ≤ ((loopStep video_fps frame_interval s).2).next_extract_frame := by
  unfold loopStep
  split_ifs <;> simp [hI]

lemma run_next_mono (video_fps frame_interval : ℚ) (hI : 0 ≤ frame_interval) :
    ∀ (n : ℕ) (s : LoopState),
      s.next_extract_frame ≤ ((runLoop video_fps frame_interval n s).2).next_extract_frame := by
  intro n
  induction n with
  | zero => intro s; exact le_refl _
  | succ n ih =>
    intro s
    rw [runLoop]
    split_ifs with ho
    · exact le_trans (step_next_mono video_fps frame_interval hI s) (ih _)
    · exact step_next_mono video_fps frame_interval hI s

lemma step_count_eq (video_fps frame_interval : ℚ) (s : LoopState)
    (h : s.extracted_count = s.saved.length) :
    ((loopStep video_fps frame_interval s).2).extracted_count
      = ((loopStep video_fps frame_interval s).2).saved.length := by
  unfold loopStep
  split_ifs <;> simp [h]

lemma run_count_eq (video_fps frame_interval : ℚ) :
    ∀ (n : ℕ) (s : LoopState), s.extracted_count = s.saved.length →
      ((runLoop video_fps frame_interval n s).2).extracted_count
        = ((runLoop video_fps frame_interval n s).2).saved.length := by
  intro n
  induction n with
  | zero => intro s h; exact h
  | succ n ih =>
    intro s h
    rw [runLoop]
    split_ifs with ho
    · exact ih _ (step_count_eq video_fps frame_interval s h)
    · exact step_count_eq video_fps frame_interval s h

lemma step_extracted_le (video_fps frame_interval : ℚ) (s : LoopState) :
    ((loopStep video_fps frame_interval s).2).extracted_count ≤ s.extracted_count + 1 := by
  unfold loopStep
  split_ifs <;> simp

lemma run_extracted_le (video_fps frame_interval : ℚ) :
    ∀ (n : ℕ) (s : LoopState),
      ((runLoop video_fps frame_interval n s).2).extracted_count ≤ s.extracted_count + n := by
  intro n
  induction n with
  | zero => intro s; exact Nat.le_refl _
  | succ n ih =>
    intro s
    rw [runLoop]
    split_ifs with ho
    · calc ((runLoop video_fps frame_interval n (loopStep video_fps frame_interval s).2).2).extracted_count
          ≤ ((loopStep video_fps frame_interval s).2).extracted_count + n := ih _
        _ ≤ (s.extracted_count + 1) + n := by
            exact Nat.add_le_add_right (step_extracted_le video_fps frame_interval s) n
        _ = s.extracted_count + (n + 1) := by omega
    · exact le_trans (step_extracted_le video_fps frame_interval s) (by omega)

lemma step_saved_mono (video_fps frame_interval : ℚ) (s : LoopState)
    (p : ℕ × ℚ × List ℕ) (hp : p ∈ s.saved) :
    p ∈ ((loopStep video_fps frame_interval s).2).saved := by
  unfold loopStep
  split_ifs <;> simp [hp]

lemma run_saved_mono (video_fps frame_interval : ℚ) :
    ∀ (n : ℕ) (s : LoopState) (p : ℕ × ℚ × List ℕ), p ∈ s.saved →
      p ∈ ((runLoop video_fps frame_interval n s).2).saved := by
  intro n
  induction n with
  | zero => intro s p hp; exact hp
  | succ n ih =>
    intro s p hp
    rw [runLoop]
    split_ifs with ho
    · exact ih _ p (step_saved_mono video_fps frame_interval s p hp)
    · exact step_saved_mono video_fps frame_interval s p hp

lemma step_extracted_mono (video_fps frame_interval : ℚ) (s : LoopState) :
    s.extracted_count ≤ ((loopStep video_fps frame_interval s).2).extracted_count := by
  unfold loopStep
  split_ifs <;> simp

lemma run_extracted_mono (video_fps frame_interval : ℚ) :
    ∀ (n : ℕ) (s : LoopState),
      s.extracted_count ≤ ((runLoop video_fps frame_interval n s).2).extracted_count := by
  intro n
  induction n with
  | zero => intro s; exact Nat.le_refl _
  | succ n ih =>
    intro s
    rw [runLoop]
    split_ifs with ho
    · exact le_trans (step_extracted_mono video_fps frame_interval s) (ih _)
    · exact step_extracted_mono video_fps frame_interval s

/-! ### Closed form for the number of kept frames -/

/-- Over `n` further frames starting at index `i`, with the threshold at the
exact accumulated value `k * frame_interval` and `frame_interval ≥ 1`, the
extracted count grows to the additive-scheduler closed form. -/
lemma runLoop_count (video_fps frame_interval : ℚ) (hfps : video_fps ≠ 0)
    (hI : 1 ≤ frame_interval) :
    ∀ (n i k e : ℕ) (sv : List (ℕ × ℚ × List ℕ)),
      (i : ℚ) < k * frame_interval + 1 →
      (((runLoop video_fps frame_interval n
          ⟨i, e, (k : ℚ) * frame_interval, sv⟩).2).extracted_count : ℤ)
        = e + (⌊((i : ℚ) + n - 1) / frame_interval⌋ + 1 - k).toNat := by
  have hI0 : (0 : ℚ) < frame_interval := lt_of_lt_of_le one_pos hI
  intro n
  induction n with
  | zero =>
    intro i k e sv hinv
    have hfl : ⌊((i : ℚ) + 0 - 1) / frame_interval⌋ < (k : ℤ) := by
      apply Int.floor_lt.mpr
      push_cast
      rw [div_lt_iff₀ hI0]
      linarith
    simp only [runLoop, Nat.cast_zero]
    omega
  | succ n ih =>
    intro i k e sv hinv
    by_cases hk : (k : ℚ) * frame_interval ≤ (i : ℚ)
    · have hstep := loopStep_keep video_fps frame_interval
        ⟨i, e, (k : ℚ) * frame_interval, sv⟩ hfps hk
      simp only [runLoop, hstep, eq_self_iff_true, if_true]
      have hth : (k : ℚ) * frame_interval + frame_interval = ((k + 1 : ℕ) : ℚ) * frame_interval := by
        push_cast
        ring
      rw [hth]
      have hinv' : ((i + 1 : ℕ) : ℚ) < ((k + 1 : ℕ) : ℚ) * frame_interval + 1 := by
        push_cast
        nlinarith
      rw [ih (i + 1) (k + 1) (e + 1) _ hinv']
      have harg : ((i + 1 : ℕ) : ℚ) + (n : ℚ) - 1 = (i : ℚ) + ((n + 1 : ℕ) : ℚ) - 1 := by
        push_cast
        ring
      rw [harg]
      have hkA : (k : ℤ) ≤ ⌊((i : ℚ) + ((n + 1 : ℕ) : ℚ) - 1) / frame_interval⌋ := by
        apply Int.le_floor.mpr
        rw [le_div_iff₀ hI0]
        push_cast
        have hn0 : (0 : ℚ) ≤ (n : ℚ) := Nat.cast_nonneg n
        linarith
      omega
    · have hstep := loopStep_skip video_fps frame_interval
        ⟨i, e, (k : ℚ) * frame_interval, sv⟩ hk
      simp only [runLoop, hstep, eq_self_iff_true, if_true]
      have hinv' : ((i + 1 : ℕ) : ℚ) < (k : ℚ) * frame_interval + 1 := by
        have := lt_of_not_le hk
        push_cast
        linarith
      rw [ih (i + 1) k e sv hinv']
      have harg : ((i + 1 : ℕ) : ℚ) + (n : ℚ) - 1 = (i : ℚ) + ((n + 1 : ℕ) : ℚ) - 1 := by
        push_cast
        ring
      rw [harg]

/-! ### Timestamp formatting -/

lemma pyTrunc_of_nonneg (q : ℚ) (h : 0 ≤ q) : pyTrunc q = ⌊q⌋ :=
  if_neg (not_lt.mpr h)

lemma pyTrunc_intCast (n : ℤ) : pyTrunc (n : ℚ) = n := by
  unfold pyTrunc
  split_ifs with h
  · exact Int.ceil_intCast n
  · exact Int.floor_intCast n

lemma pyMod_nonneg (a b : ℚ) (hb : 0 < b) : 0 ≤ pyMod a b := by
  unfold pyMod
  have h1 : ((⌊a / b⌋ : ℤ) : ℚ) ≤ a / b := Int.floor_le (a / b)
  have h2 : b * (a / b) = a := by
    field_simp
  nlinarith

lemma timestampFields_eq_floor (s : ℚ) :
    timestampFields s = (⌊s / 60⌋, ⌊pyMod s 60⌋, ⌊pyMod s 1 * 1000⌋) := by
  unfold timestampFields
  refine Prod.ext ?_ (Prod.ext ?_ ?_)
  · show pyTrunc (pyFloorDiv s 60) = ⌊s / 60⌋
    unfold pyFloorDiv
    exact pyTrunc_intCast _
  · show pyTrunc (pyMod s 60) = ⌊pyMod s 60⌋
    exact pyTrunc_of_nonneg _ (pyMod_nonneg s 60 (by norm_num))
  · show pyTrunc (pyMod s 1 * 1000) = ⌊pyMod s 1 * 1000⌋
    exact pyTrunc_of_nonneg _
      (mul_nonneg (pyMod_nonneg s 1 (by norm_num)) (by norm_num))

lemma frameName_eq_spec (video_fps : ℚ) (i : ℕ) :
    frameName video_fps i = specFrameFilename ((i : ℚ) / video_fps) := by
  unfold frameName specFrameFilename format_timestamp
  rw [timestampFields_eq_floor]
  simp [List.append_assoc]

/-! ### Parsing helper lemmas -/

lemma pyLowerChar_pyUpperChar (c : ℕ) : pyLowerChar (pyUpperChar c) = pyLowerChar c := by
  unfold pyLowerChar pyUpperChar
  split_ifs <;> omega

lemma pyLower_map_pyUpperChar (l : List ℕ) :
    pyLower (l.map pyUpperChar) = pyLower l := by
  simp only [pyLower, List.map_map, Function.comp]
  simp [pyLowerChar_pyUpperChar]

lemma map_eq_self_of_mem {f : ℕ → ℕ} :
    ∀ l : List ℕ, (∀ c ∈ l, f c = c) → l.map f = l := by
  intro l
  induction l with
  | nil => intro _; rfl
  | cons c cs ih =>
    intro h
    simp only [List.map_cons]
    rw [h c (by simp), ih (fun d hd => h d (by simp [hd]))]

lemma pyLowerChar_of_digit (c : ℕ) (h : isDigitCh c = true) : pyLowerChar c = c := by
  simp only [isDigitCh, Bool.and_eq_true, decide_eq_true_eq] at h
  unfold pyLowerChar
  rw [if_neg]
  omega

lemma isSpaceCh_of_digit (c : ℕ) (h : isDigitCh c = true) : isSpaceCh c = false := by
  simp only [isDigitCh, Bool.and_eq_true, decide_eq_true_eq] at h
  simp only [isSpaceCh, Bool.or_eq_false_iff, Bool.and_eq_false_iff,
    decide_eq_false_iff_not]
  omega

lemma splitOnChar_of_not_mem (sep : ℕ) :
    ∀ l : List ℕ, sep ∉ l → splitOnChar sep l = [l] := by
  intro l
  induction l with
  | nil => intro _; rfl
  | cons c cs ih =>
    intro h
    have hc : ¬ c = sep := fun hc => h (by simp [hc])
    have hcs : sep ∉ cs := fun hcs => h (by simp [hcs])
    rw [splitOnChar, if_neg hc, ih hcs]

lemma splitOnChar_append_sep (sep : ℕ) (m : List ℕ) :
    ∀ l : List ℕ, sep ∉ l →
      splitOnChar sep (l ++ sep :: m) = l :: splitOnChar sep m := by
  intro l
  induction l with
  | nil =>
    intro _
    simp only [List.nil_append]
    rw [splitOnChar, if_pos rfl]
  | cons c cs ih =>
    intro h
    have hc : ¬ c = sep := fun hc => h (by simp [hc])
    have hcs : sep ∉ cs := fun hcs => h (by simp [hcs])
    simp only [List.cons_append]
    rw [splitOnChar, if_neg hc, ih hcs]

lemma dropWhile_eq_self_of_false (p : ℕ → Bool) (l : List ℕ)
    (h : ∀ c ∈ l, p c = false) : l.dropWhile p = l := by
  cases l with
  | nil => rfl
  | cons c cs => simp [List.dropWhile_cons, h c (by simp)]

lemma stripStr_of_digits (l : List ℕ) (h : ∀ c ∈ l, isDigitCh c = true) :
    stripStr l = l := by
  unfold stripStr
  rw [dropWhile_eq_self_of_false _ _ (fun c hc => isSpaceCh_of_digit c (h c hc)),
    dropWhile_eq_self_of_false _ _
      (fun c hc => isSpaceCh_of_digit c (h c (List.mem_reverse.mp hc))),
    List.reverse_reverse]

lemma parseDigitsRest_of_digits :
    ∀ l : List ℕ, (∀ c ∈ l, isDigitCh c = true) → ∀ acc : ℕ,
      parseDigitsRest acc l = some (l.foldl (fun a c => 10 * a + (c - 48)) acc) := by
  intro l
  induction l with
  | nil => intro _ acc; rfl
  | cons c cs ih =>
    intro h acc
    cases cs with
    | nil =>
      simp [parseDigitsRest, h c (by simp)]
    | cons c2 cs2 =>
      rw [parseDigitsRest, if_pos (h c (by simp))]
      rw [ih (fun d hd => h d (by simp [hd]))]
      rfl

lemma pyIntDigits_of_digits (l : List ℕ) (hne : l ≠ [])
    (h : ∀ c ∈ l, isDigitCh c = true) :
    pyIntDigits l = some (l.foldl (fun a c => 10 * a + (c - 48)) 0) := by
  cases l with
  | nil => exact absurd rfl hne
  | cons c cs =>
    rw [pyIntDigits, if_pos (h c (by simp))]
    rw [parseDigitsRest_of_digits cs (fun d hd => h d (by simp [hd])) (c - 48)]
    simp [List.foldl_cons]

lemma pyInt_of_digits (l : List ℕ) (hne : l ≠ [])
    (h : ∀ c ∈ l, isDigitCh c = true) :
    pyInt l = some (digitsVal l) := by
  cases l with
  | nil => exact absurd rfl hne
  | cons c cs =>
    have hc := h c (by simp)
    have hc' : 48 ≤ c ∧ c ≤ 57 := by
      simpa [isDigitCh] using hc
    simp only [pyInt, stripStr_of_digits _ h]
    rw [if_neg (by omega), if_neg (by omega)]
    rw [pyIntDigits_of_digits _ (by simp) h]
    simp [digitsVal, Int.ofNat_eq_coe]

/-! ### Claim theorems -/

/-- C1: in every iteration of the sampling loop (with a nonzero source frame
rate, which rules out the orthogonal `ZeroDivisionError` in the timestamp
computation), the decoded frame with index `frame_count` is kept — written,
`extracted_count` incremented — if and only if
`frame_count ≥ next_extract_frame` compared as real numbers; on a keep
`next_extract_frame` advances by exactly `frame_interval`, and on a skip the
threshold is unchanged. -/
theorem c1_keep_rule (video_fps frame_interval : ℚ) (hfps : video_fps ≠ 0) (s : LoopState) :
    (s.next_extract_frame ≤ (s.frame_count : ℚ) →
      loopStep video_fps frame_interval s =
        (none, ⟨s.frame_count + 1, s.extracted_count + 1,
          s.next_extract_frame + frame_interval,
          s.saved ++ [(s.frame_count, s.next_extract_frame,
            frameName video_fps s.frame_count)]⟩)) ∧
    (¬ s.next_extract_frame ≤ (s.frame_count : ℚ) →
      loopStep video_fps frame_interval s =
        (none, ⟨s.frame_count + 1, s.extracted_count, s.next_extract_frame, s.saved⟩)) :=
  ⟨fun hk => loopStep_keep video_fps frame_interval s hfps hk,
   fun hk => loopStep_skip video_fps frame_interval s hk⟩

/-- Witness for C1 at a concrete skip step: threshold 5, frame index 0. -/
theorem c1_keep_rule_witness :
    loopStep 1 1 ⟨0, 0, 5, []⟩ = (none, ⟨1, 0, 5, []⟩) :=
  (c1_keep_rule 1 1 (by norm_num) ⟨0, 0, 5, []⟩).2 (by norm_num)

/-- C3 counterexample: after one frame of a run with `video_fps = 3` and
`target_fps = 2` (`frame_interval = 3/2`) the threshold is `3/2` and the
current frame index is `1`; the floor of the threshold is `≤ 1`, so the
claimed floor-comparison rule would keep this frame, yet the loop skips it:
`extracted_count` and the write trace are unchanged by the step. -/
theorem c3_floor_rule_counterexample :
    ⌊((runLoop 3 (3/2) 1 initState).2).next_extract_frame⌋
        ≤ (((runLoop 3 (3/2) 1 initState).2).frame_count : ℤ) ∧
    ((loopStep 3 (3/2) ((runLoop 3 (3/2) 1 initState).2)).2).extracted_count
        = ((runLoop 3 (3/2) 1 initState).2).extracted_count ∧
    ((loopStep 3 (3/2) ((runLoop 3 (3/2) 1 initState).2)).2).saved
        = ((runLoop 3 (3/2) 1 initState).2).saved := by
  have h : (runLoop 3 (3/2) 1 initState).2 = ⟨1, 1, 3/2, [(0, 0, frameName 3 0)]⟩ := by
    norm_num [runLoop, loopStep, initState]
  rw [h]
  refine ⟨by norm_num, ?_, ?_⟩
  · norm_num [loopStep]
  · norm_num [loopStep]

/-- C3 (amended): a decoded frame is kept if and only if its source index is
at least the ceiling of the current real-valued threshold (the loop compares
the integer index against the real threshold itself, which for an integer
index is the ceiling rule, not the floor rule). -/
theorem c3_ceil_rule (video_fps frame_interval : ℚ) (s s' : LoopState)
    (hstep : loopStep video_fps frame_interval s = (none, s')) :
    s'.extracted_count = s.extracted_count + 1 ↔
      ⌈s.next_extract_frame⌉ ≤ (s.frame_count : ℤ) := by
  by_cases hk : s.next_extract_frame ≤ (s.frame_count : ℚ)
  · by_cases hz : video_fps = 0
    · rw [loopStep, if_pos hk, if_pos hz] at hstep
      exact absurd (congrArg Prod.fst hstep) (by simp)
    · rw [loopStep_keep video_fps frame_interval s hz hk] at hstep
      have hs' : s' = ⟨s.frame_count + 1, s.extracted_count + 1,
          s.next_extract_frame + frame_interval,
          s.saved ++ [(s.frame_count, s.next_extract_frame,
            frameName video_fps s.frame_count)]⟩ :=
        (congrArg Prod.snd hstep).symm
      subst hs'
      exact iff_of_true rfl (Int.ceil_le.mpr (by exact_mod_cast hk))
  · rw [loopStep_skip video_fps frame_interval s hk] at hstep
    have hs' : s' = ⟨s.frame_count + 1, s.extracted_count,
        s.next_extract_frame, s.saved⟩ :=
      (congrArg Prod.snd hstep).symm
    subst hs'
    apply iff_of_false
    · simp
    · intro hc
      exact hk (by exact_mod_cast Int.ceil_le.mp hc)

/-- Witness for C3 (amended) at a concrete skip step: threshold 5, index 0. -/
theorem c3_ceil_rule_witness :
    ((⟨1, 0, 5, []⟩ : LoopState).extracted_count
        = (⟨0, 0, 5, []⟩ : LoopState).extracted_count + 1) ↔
      ⌈(⟨0, 0, 5, []⟩ : LoopState).next_extract_frame⌉
        ≤ ((⟨0, 0, 5, []⟩ : LoopState).frame_count : ℤ) :=
  c3_ceil_rule 1 1 ⟨0, 0, 5, []⟩ ⟨1, 0, 5, []⟩
    (loopStep_skip 1 1 ⟨0, 0, 5, []⟩ (by norm_num))

/-- C4: with a positive frame interval, the kept source indices of a run are
strictly increasing, every write was decided with the threshold at most the
written index, and `next_extract_frame` never decreases across any part of
the run. -/
theorem c4_run_invariants (video_fps frame_interval : ℚ) (hI : 0 < frame_interval) :
    (∀ N : ℕ, List.Pairwise (fun p q => p.1 < q.1)
        ((runLoop video_fps frame_interval N initState).2).saved) ∧
    (∀ N : ℕ, ∀ p ∈ ((runLoop video_fps frame_interval N initState).2).saved,
        p.2.1 ≤ (p.1 : ℚ)) ∧
    (∀ (n : ℕ) (s : LoopState),
        s.next_extract_frame ≤ ((runLoop video_fps frame_interval n s).2).next_extract_frame) := by
  refine ⟨?_, ?_, ?_⟩
  · intro N
    exact (savedInv_run video_fps frame_interval N initState
      (savedInv_initState video_fps)).1
  · intro N p hp
    exact ((savedInv_run video_fps frame_interval N initState
      (savedInv_initState video_fps)).2 p hp).2.1
  · intro n s
    exact run_next_mono video_fps frame_interval (le_of_lt hI) n s

/-- Witness for C4 at `frame_interval = 1` over a three-frame run. -/
theorem c4_run_invariants_witness :
    initState.next_extract_frame ≤ ((runLoop 30 1 3 initState).2).next_extract_frame :=
  (c4_run_invariants 30 1 (by norm_num)).2.2 3 initState

/-- C7: when the stream fails to open, `sample_frames` raises before any
side effect: the output directory is not created, no read or write happens,
and no extracted count is produced — the outcome is the open error. -/
theorem c7_open_failure (video_fps target_fps : ℚ) (stream_frames : ℕ) :
    sample_frames false video_fps target_fps stream_frames
      = ⟨false, 0, [], Outcome.err RunError.cannotOpen⟩ := by
  simp [sample_frames]

lemma sample_frames_writes (video_fps target_fps : ℚ) (stream_frames : ℕ) :
    (sample_frames true video_fps target_fps stream_frames).writes
      = (runLoop video_fps
          (if 0 < target_fps then video_fps / target_fps else video_fps)
          stream_frames initState).2.saved := by
  simp only [sample_frames]
  cases h : (runLoop video_fps
      (if 0 < target_fps then video_fps / target_fps else video_fps)
      stream_frames initState).1 <;> simp [h]

lemma sample_frames_ok (video_fps target_fps : ℚ) (hfps : video_fps ≠ 0) (stream_frames : ℕ) :
    sample_frames true video_fps target_fps stream_frames
      = ⟨true, stream_frames + 1,
          (runLoop video_fps
            (if 0 < target_fps then video_fps / target_fps else video_fps)
            stream_frames initState).2.saved,
          Outcome.done (runLoop video_fps
            (if 0 < target_fps then video_fps / target_fps else video_fps)
            stream_frames initState).2.extracted_count⟩ := by
  simp only [sample_frames]
  rw [runLoop_fst_eq_none video_fps _ hfps stream_frames initState]
  simp

/-- C5: every frame kept by a run whose timestamp `sourceIndex / video_fps`
is non-negative is written under the filename `frame_{MM}_{SS}_{mmm}.png`
with `MM = floor(ts / 60)` zero-padded to at least two digits,
`SS = floor(ts mod 60)` zero-padded to two digits, and
`mmm = floor((ts mod 1) * 1000)` zero-padded to three digits. -/
theorem c5_filename_format (video_fps target_fps : ℚ) (stream_frames : ℕ) :
    ∀ p ∈ (sample_frames true video_fps target_fps stream_frames).writes,
      0 ≤ (p.1 : ℚ) / video_fps →
      p.2.2 = specFrameFilename ((p.1 : ℚ) / video_fps) := by
  intro p hp _
  rw [sample_frames_writes] at hp
  have hname := ((savedInv_run video_fps
      (if 0 < target_fps then video_fps / target_fps else video_fps)
      stream_frames initState (savedInv_initState video_fps)).2 p hp).2.2
  rw [hname, frameName_eq_spec]

/-- Witness for C5: the first frame of a 30 fps run is written as
`specFrameFilename 0`, i.e. `frame_00_00_000.png`. -/
theorem c5_filename_format_witness :
    frameName 30 0 = specFrameFilename (((0 : ℕ) : ℚ) / 30) :=
  c5_filename_format 30 1 1 (0, 0, frameName 30 0)
    (by norm_num [sample_frames, runLoop, loopStep, initState]) (by norm_num)

/-- C6: for every non-negative timestamp, decoding the `(MM, SS, mmm)`
fields computed by `format_timestamp` back to `MM * 60 + SS + mmm / 1000`
seconds recovers the timestamp within one millisecond. -/
theorem c6_timestamp_roundtrip (ts : ℚ) (h : 0 ≤ ts) :
    |ts - decodeFields (timestampFields ts)| ≤ 1 / 1000 := by
  rw [timestampFields_eq_floor]
  have h1 : pyMod ts 1 = ts - (⌊ts⌋ : ℚ) := by
    unfold pyMod
    rw [div_one]
    ring
  have hss : ⌊pyMod ts 60⌋ = ⌊ts⌋ - 60 * ⌊ts / 60⌋ := by
    unfold pyMod
    rw [show ts - 60 * ((⌊ts / 60⌋ : ℤ) : ℚ) = ts - ((60 * ⌊ts / 60⌋ : ℤ) : ℚ) by
      push_cast; ring]
    rw [Int.floor_sub_int]
  have hmmm : ⌊pyMod ts 1 * 1000⌋ = ⌊(ts - (⌊ts⌋ : ℚ)) * 1000⌋ := by rw [h1]
  rw [hss, hmmm]
  unfold decodeFields
  have hfl : ((⌊ts⌋ : ℤ) : ℚ) ≤ ts := Int.floor_le ts
  have hfu : ts < (⌊ts⌋ : ℚ) + 1 := Int.lt_floor_add_one ts
  have hFl : ((⌊(ts - (⌊ts⌋ : ℚ)) * 1000⌋ : ℤ) : ℚ) ≤ (ts - (⌊ts⌋ : ℚ)) * 1000 :=
    Int.floor_le _
  have hFu : (ts - (⌊ts⌋ : ℚ)) * 1000 < (⌊(ts - (⌊ts⌋ : ℚ)) * 1000⌋ : ℚ) + 1 :=
    Int.lt_floor_add_one _
  rw [abs_le]
  push_cast
  constructor <;> linarith

/-- Witness for C6 at `ts = 61/2` (30.5 seconds). -/
theorem c6_timestamp_roundtrip_witness :
    |(61 / 2 : ℚ) - decodeFields (timestampFields (61 / 2))| ≤ 1 / 1000 :=
  c6_timestamp_roundtrip (61 / 2) (by norm_num)

/-- C8: whenever `sample_frames` returns a count, that count equals the
number of frames written during the run and never exceeds the number of
frames the stream yields (the model equates the metadata frame count with
the stream length, as the spec's data model does). -/
theorem c8_extracted_count (opened : Bool) (video_fps target_fps : ℚ)
    (stream_frames k : ℕ)
    (h : (sample_frames opened video_fps target_fps stream_frames).outcome
          = Outcome.done k) :
    k = (sample_frames opened video_fps target_fps stream_frames).writes.length ∧
    k ≤ stream_frames := by
  cases opened with
  | false => simp [sample_frames] at h
  | true =>
    cases hrun : (runLoop video_fps
        (if 0 < target_fps then video_fps / target_fps else video_fps)
        stream_frames initState).1 with
    | some e =>
      simp [sample_frames, hrun] at h
    | none =>
      simp only [sample_frames, hrun, if_true] at h ⊢
      simp only [Outcome.done.injEq] at h
      subst h
      constructor
      · exact run_count_eq video_fps _ stream_frames initState rfl
      · have hle := run_extracted_le video_fps
          (if 0 < target_fps then video_fps / target_fps else video_fps)
          stream_frames initState
        simpa [initState] using hle

/-- Witness for C8: a two-frame run at 30 fps sampled at 1 fps keeps one
frame. -/
theorem c8_extracted_count_witness :
    (1 : ℕ) = (sample_frames true 30 1 2).writes.length ∧ 1 ≤ 2 :=
  c8_extracted_count true 30 1 2 1
    (by norm_num [sample_frames, runLoop, loopStep, initState])

/-- C2: with positive rates and `target_fps ≤ video_fps`, the number of kept
frames over a run of `N` decoded frames with
`frame_interval = video_fps / target_fps` equals `⌊N / frame_interval⌋` or
`⌊N / frame_interval⌋ + 1` (and the run completes without error). -/
theorem c2_kept_count (video_fps target_fps : ℚ) (hfps : 0 < video_fps)
    (ht : 0 < target_fps) (hle : target_fps ≤ video_fps) (N : ℕ) :
    (runLoop video_fps (video_fps / target_fps) N initState).1 = none ∧
    ((((runLoop video_fps (video_fps / target_fps) N initState).2).extracted_count : ℤ)
        = ⌊(N : ℚ) / (video_fps / target_fps)⌋ ∨
     (((runLoop video_fps (video_fps / target_fps) N initState).2).extracted_count : ℤ)
        = ⌊(N : ℚ) / (video_fps / target_fps)⌋ + 1) := by
  have hfps' : video_fps ≠ 0 := ne_of_gt hfps
  have hI : 1 ≤ video_fps / target_fps := (one_le_div ht).mpr hle
  have hI0 : (0 : ℚ) < video_fps / target_fps := lt_of_lt_of_le one_pos hI
  refine ⟨runLoop_fst_eq_none _ _ hfps' N initState, ?_⟩
  have hstate : (⟨0, 0, ((0 : ℕ) : ℚ) * (video_fps / target_fps), []⟩ : LoopState)
      = initState := by
    norm_num [initState]
  have hcount := runLoop_count video_fps (video_fps / target_fps) hfps' hI
    N 0 0 0 [] (by norm_num)
  rw [hstate] at hcount
  simp only [Nat.cast_zero, zero_add, sub_zero, CharP.cast_eq_zero] at hcount
  have hBC : ⌊((N : ℚ) - 1) / (video_fps / target_fps)⌋
      ≤ ⌊(N : ℚ) / (video_fps / target_fps)⌋ :=
    Int.floor_le_floor ((div_le_div_iff_of_pos_right hI0).mpr (by linarith))
  have h1I : 1 / (video_fps / target_fps) ≤ 1 := (div_le_one hI0).mpr hI
  have hsum : (N : ℚ) / (video_fps / target_fps)
      ≤ ((N : ℚ) - 1) / (video_fps / target_fps) + 1 := by
    have hd : (N : ℚ) / (video_fps / target_fps)
        - ((N : ℚ) - 1) / (video_fps / target_fps) = 1 / (video_fps / target_fps) := by
      rw [div_sub_div_same]
      norm_num
    linarith
  have hCB : ⌊(N : ℚ) / (video_fps / target_fps)⌋
      ≤ ⌊((N : ℚ) - 1) / (video_fps / target_fps)⌋ + 1 := by
    calc ⌊(N : ℚ) / (video_fps / target_fps)⌋
        ≤ ⌊((N : ℚ) - 1) / (video_fps / target_fps) + 1⌋ := Int.floor_le_floor hsum
      _ = ⌊((N : ℚ) - 1) / (video_fps / target_fps)⌋ + 1 := Int.floor_add_one _
  have hC0 : 0 ≤ ⌊(N : ℚ) / (video_fps / target_fps)⌋ :=
    Int.floor_nonneg.mpr (div_nonneg (Nat.cast_nonneg N) (le_of_lt hI0))
  omega

/-- Witness for C2: the spec's own scenario, a 90-frame 30 fps clip sampled
at 1 fps. -/
theorem c2_kept_count_witness :
    (runLoop 30 (30 / 1) 90 initState).1 = none ∧
    ((((runLoop 30 (30 / 1) 90 initState).2).extracted_count : ℤ)
        = ⌊((90 : ℕ) : ℚ) / (30 / 1)⌋ ∨
     (((runLoop 30 (30 / 1) 90 initState).2).extracted_count : ℤ)
        = ⌊((90 : ℕ) : ℚ) / (30 / 1)⌋ + 1) :=
  c2_kept_count 30 1 (by norm_num) (by norm_num) (by norm_num) 90

/-- C9 counterexample: `parse_resize` does not validate positivity — the
well-formed string `"0x0"` is accepted and yields the non-positive pair
`(0, 0)` instead of being rejected. -/
theorem c9_positive_counterexample :
    parse_resize (pyStr "0x0") = some (0, 0) ∧ ¬ (0 : ℤ) < 0 := by
  refine ⟨by decide, by decide⟩

/-- C9 (amended): `parse_resize` either rejects its input with an
argument-parsing error or returns a pair of two integers — positivity is not
checked; the `WIDTHxHEIGHT` syntax is accepted case-insensitively (upper- and
lower-case spellings parse identically, and `digits X digits` parses to the
two numbers). -/
theorem c9_parse_resize_amended :
    (∀ l : List ℕ, parse_resize l = none ∨ ∃ w h : ℤ, parse_resize l = some (w, h)) ∧
    (∀ l : List ℕ, parse_resize (l.map pyUpperChar) = parse_resize l) ∧
    (∀ l m : List ℕ, l ≠ [] → m ≠ [] →
      (∀ c ∈ l, isDigitCh c = true) → (∀ c ∈ m, isDigitCh c = true) →
      parse_resize (l ++ 88 :: m) = some (digitsVal l, digitsVal m)) := by
  refine ⟨?_, ?_, ?_⟩
  · intro l
    cases hp : parse_resize l with
    | none => exact Or.inl rfl
    | some p =>
      obtain ⟨a, b⟩ := p
      exact Or.inr ⟨a, b, rfl⟩
  · intro l
    simp only [parse_resize]
    rw [pyLower_map_pyUpperChar]
  · intro l m hl hm hld hmd
    have hlow : pyLower (l ++ 88 :: m) = l ++ 120 :: m := by
      simp only [pyLower, List.map_append, List.map_cons]
      rw [map_eq_self_of_mem l (fun c hc => pyLowerChar_of_digit c (hld c hc)),
        map_eq_self_of_mem m (fun c hc => pyLowerChar_of_digit c (hmd c hc))]
      norm_num [pyLowerChar]
    have hnotl : (120 : ℕ) ∉ l := by
      intro hmem
      have := hld 120 hmem
      simp [isDigitCh] at this
    have hnotm : (120 : ℕ) ∉ m := by
      intro hmem
      have := hmd 120 hmem
      simp [isDigitCh] at this
    simp only [parse_resize, hlow]
    simp only [splitOnChar_append_sep 120 m l hnotl, splitOnChar_of_not_mem 120 m hnotm]
    simp only [pyInt_of_digits l hl hld, pyInt_of_digits m hm hmd]

/-- Witness for C9 (amended): `"12X720"` parses to `(12, 720)` despite the
upper-case separator. -/
theorem c9_parse_resize_amended_witness :
    parse_resize ([49, 50] ++ 88 :: [55, 50, 48])
      = some (digitsVal [49, 50], digitsVal [55, 50, 48]) :=
  c9_parse_resize_amended.2.2 [49, 50] [55, 50, 48]
    (by decide) (by decide) (by decide) (by decide)

/-- C10 counterexample: with `video_fps = 0` (corrupt stream metadata) and a
one-frame stream, frame 0 passes the keep test but the timestamp computation
raises `ZeroDivisionError`, so nothing is written and no extracted count is
produced — the claim fails for this value of the source frame rate. -/
theorem c10_zero_fps_counterexample :
    (sample_frames true 0 1 1).writes = [] ∧
    (sample_frames true 0 1 1).outcome = Outcome.err RunError.zeroDivision := by
  have h : sample_frames true 0 1 1 = ⟨true, 1, [], Outcome.err RunError.zeroDivision⟩ := by
    simp [sample_frames, runLoop, loopStep, initState]
  rw [h]
  exact ⟨rfl, rfl⟩

/-- C10 (amended): for every run with a nonzero source frame rate whose
stream yields at least one frame, frame 0 is kept — the threshold starts at
0 and `0 ≥ 0` — regardless of the rates, so the run returns an extracted
count of at least 1. -/
theorem c10_first_frame_kept (video_fps target_fps : ℚ) (hfps : video_fps ≠ 0)
    (stream_frames : ℕ) (hN : 0 < stream_frames) :
    (0, (0 : ℚ), frameName video_fps 0)
        ∈ (sample_frames true video_fps target_fps stream_frames).writes ∧
    ∃ k, (sample_frames true video_fps target_fps stream_frames).outcome
          = Outcome.done k ∧ 1 ≤ k := by
  obtain ⟨n, rfl⟩ : ∃ n, stream_frames = n + 1 := ⟨stream_frames - 1, by omega⟩
  rw [sample_frames_ok video_fps target_fps hfps]
  set I := if 0 < target_fps then video_fps / target_fps else video_fps with hIdef
  have hsucc := runLoop_succ_of_none video_fps I n initState hfps
  have hmem0 : (0, (0 : ℚ), frameName video_fps 0)
      ∈ (loopStep video_fps I initState).2.saved := by
    rw [loopStep_keep video_fps I initState hfps (by simp [initState])]
    simp [initState]
  have hext0 : 1 ≤ (loopStep video_fps I initState).2.extracted_count := by
    rw [loopStep_keep video_fps I initState hfps (by simp [initState])]
    simp [initState]
  constructor
  · show (0, (0 : ℚ), frameName video_fps 0)
        ∈ (runLoop video_fps I (n + 1) initState).2.saved
    rw [hsucc]
    exact run_saved_mono video_fps I n _ _ hmem0
  · refine ⟨(runLoop video_fps I (n + 1) initState).2.extracted_count, rfl, ?_⟩
    rw [hsucc]
    exact le_trans hext0 (run_extracted_mono video_fps I n _)

/-- Witness for C10 (amended): a one-frame run at 30 fps keeps frame 0. -/
theorem c10_first_frame_kept_witness :
    (0, (0 : ℚ), frameName 30 0) ∈ (sample_frames true 30 1 1).writes ∧
    ∃ k, (sample_frames true 30 1 1).outcome = Outcome.done k ∧ 1 ≤ k :=
  c10_first_frame_kept 30 1 (by norm_num) 1 (by norm_num)
